import Mathlib

/-!
Verification of the repository ingestion and file-selection pipeline of the
uai backend. The Python services (`repository_service.py`) and the explain
endpoint (`gemini.py`) are shallowly embedded: strings are `String`, Python
lists are `List`, the filesystem is an explicit record threaded through the
stateful operations, and raised exceptions are `Except` errors.
-/

/-! ## String utilities modelling Python primitives -/

/-- Models Python `str.lower()` (ASCII case folding, which covers every string
the services compare). -/
def sLower (s : String) : String := String.mk (s.data.map Char.toLower)

/-- Models the Python substring test `needle in hay`. -/
def strContains (hay needle : String) : Bool :=
  (List.range (hay.data.length + 1)).any (fun i => needle.data.isPrefixOf (hay.data.drop i))

/-- Index of the last occurrence of a character in a character list. -/
def lastIndexOf (c : Char) : List Char → Option Nat
  | [] => none
  | a :: rest =>
    match lastIndexOf c rest with
    | some i => some (i + 1)
    | none => if a = c then some 0 else none

/-- Extension part of `os.path.splitext` (POSIX flavour): the suffix starting at
the last dot, provided some character of the basename strictly before that dot
is not itself a dot (so dotfiles such as `.bashrc` have no extension). -/
def splitextExtChars (p : List Char) : List Char :=
  match lastIndexOf '.' p with
  | none => []
  | some dotIdx =>
    let bStart : Nat :=
      match lastIndexOf '/' p with
      | some i => i + 1
      | none => 0
    if ((p.drop bStart).take (dotIdx - bStart)).any (fun ch => ch ≠ '.') then
      p.drop dotIdx
    else []

/-- String version of the `os.path.splitext` extension (includes the dot). -/
def splitextExt (s : String) : String := String.mk (splitextExtChars s.data)

/-- Basename of a forward-slash path, as `os.walk` hands the file name. -/
def fileName (relPath : String) : String :=
  match lastIndexOf '/' relPath.data with
  | some i => String.mk (relPath.data.drop (i + 1))
  | none => relPath

/-- Models Python `s.endswith(suffix)` (case-sensitive). -/
def strEndsWith (s suffix : String) : Bool := suffix.data.isSuffixOf s.data

/-! ## The whole-codebase Relevance Selector (`gemini.py`, explain endpoint) -/

/-- The fixed keyword set `key_file_patterns` of the explain endpoint. -/
def key_file_patterns : List String :=
  ["main", "config", "auth", "security", "database", "models", "app",
   "index", "server", "api", "routes", "environment", ".env", "docker",
   "package.json", "requirements.txt", "settings", "middleware"]

/-- A path is a key file when its lower-cased form contains some keyword,
mirroring `any(pattern in f['path'].lower() for pattern in key_file_patterns)`. -/
def isKeyFile (path : String) : Bool :=
  key_file_patterns.any (fun pattern => strContains (sLower path) pattern)

/-- The selector of the explain endpoint:
`key_files = [f for f in all_files if any(...)]`,
`other_files = [f for f in all_files if f not in key_files]`,
`selected_files = key_files[:5] + other_files[:5]`. -/
def selectFiles (all_files : List String) : List String :=
  let key_files := all_files.filter isKeyFile
  let other_files := all_files.filter (fun f => decide (f ∉ key_files))
  key_files.take 5 ++ other_files.take 5

theorem selectFiles_other_eq (all_files : List String) :
    all_files.filter (fun f => decide (f ∉ all_files.filter isKeyFile))
      = all_files.filter (fun f => ! isKeyFile f) := by
  apply List.filter_congr
  intro x hx
  by_cases hk : isKeyFile x
  · simp [List.mem_filter, hx, hk]
  · simp [List.mem_filter, hx, hk]

/-- C1: the whole-codebase selector keeps the first 5 keyword-matching files
followed by the first 5 non-matching files, each partition in input order,
hence at most 10 entries; on the five-file example repository it selects the
three key files then the two others, in the stated order. -/
theorem selector_partitions_and_caps (files : List String) :
    selectFiles files
      = (files.filter isKeyFile).take 5
        ++ (files.filter (fun f => ! isKeyFile f)).take 5
    ∧ (selectFiles files).length ≤ 10
    ∧ selectFiles ["src/main.py", "README.md", "config/settings.yaml",
        "src/utils.py", "security/auth.py"]
      = ["src/main.py", "config/settings.yaml", "security/auth.py",
         "README.md", "src/utils.py"] := by
  refine ⟨?_, ?_, ?_⟩
  · show (files.filter isKeyFile).take 5
        ++ (files.filter (fun f => decide (f ∉ files.filter isKeyFile))).take 5
      = (files.filter isKeyFile).take 5
        ++ (files.filter (fun f => ! isKeyFile f)).take 5
    rw [selectFiles_other_eq]
  · show ((files.filter isKeyFile).take 5
        ++ (files.filter (fun f => decide (f ∉ files.filter isKeyFile))).take 5).length ≤ 10
    rw [List.length_append, List.length_take, List.length_take]
    omega
  · rfl

/-! ## The per-file content loop of the codebase branch (`gemini.py`) -/

/-- A Python runtime value as far as the content loop is concerned: the string
returned by `get_file_content`, or a dict. -/
inductive PyVal where
  | pystr (s : String)
  | pydict (entries : List (String × String))
deriving DecidableEq

/-- Models the Python call `v.get(key, default)`: dicts look the key up, while a
str has no `get` attribute, so the call raises `AttributeError`. -/
def pyGet (v : PyVal) (key : String) (dflt : String) : Except String String :=
  match v with
  | .pydict es => .ok ((es.lookup key).getD dflt)
  | .pystr _ => .error "AttributeError"

/-- The loop of the codebase branch: for each selected path it fetches the file
content (`get_file_content` returns a `str`, modelled by wrapping the oracle
result in `PyVal.pystr`), evaluates `content.get("content", "")[:1500]`, and on
any exception logs a warning and skips the file. -/
def collect_file_contents (getContent : String → Except String String)
    (selected_files : List String) : List (String × String) :=
  selected_files.filterMap (fun path =>
    match (getContent path).map PyVal.pystr with
    | .error _ => none
    | .ok contentVal =>
      match pyGet contentVal "content" "" with
      | .error _ => none
      | .ok s => some (path, String.mk (s.data.take 1500)))

/-- C2 (code bug): because `get_file_content` returns a `str` and the loop calls
the dict method `.get` on it, every selected file raises `AttributeError` and is
skipped, so the assembled context never contains any content — in particular not
the first 1500 characters of a 2000-character file. -/
theorem content_loop_includes_nothing (getContent : String → Except String String)
    (selected_files : List String) :
    collect_file_contents getContent selected_files = []
    ∧ collect_file_contents
        (fun _ => Except.ok (String.mk (List.replicate 2000 'a')))
        ["src/main.py"] = [] := by
  constructor
  · rw [collect_file_contents, List.filterMap_eq_nil_iff]
    intro path _
    cases getContent path <;> rfl
  · rfl

/-! ## The Language/Type Profiler (`analyze_repository`) -/

/-- The extension list of `analyze_repository`:
`[os.path.splitext(f)[1][1:].lower() for f in all_files if os.path.splitext(f)[1]]`. -/
def extensionsOf (all_files : List String) : List String :=
  (all_files.filter (fun f => splitextExt f ≠ "")).map
    (fun f => sLower (String.mk ((splitextExt f).data.drop 1)))

/-- The `language_stats` dict, `dict(Counter(extensions))`, as an association
list from extension key to occurrence count. -/
def language_stats (all_files : List String) : List (String × Nat) :=
  (extensionsOf all_files).dedup.map (fun e => (e, (extensionsOf all_files).count e))

/-- C3: the profiler's counts sum to the number of files whose `splitext`
extension is non-empty, and its key set is exactly the set of lower-cased
dotless extensions of those files — so a file with no extension contributes
no key. -/
theorem profiler_counts_sum_and_keys (files : List String) :
    ((language_stats files).map Prod.snd).sum
      = (files.filter (fun f => splitextExt f ≠ "")).length
    ∧ (language_stats files).map Prod.fst = (extensionsOf files).dedup := by
  constructor
  · have h1 : (language_stats files).map Prod.snd
        = (extensionsOf files).dedup.map (fun e => (extensionsOf files).count e) := by
      rw [language_stats, List.map_map]
      rfl
    rw [h1, List.sum_map_count_dedup_eq_length, extensionsOf, List.length_map]
  · rw [language_stats, List.map_map]
    exact List.map_id _

/-! ## The File-Tree Walker (`get_repository_files`) -/

/-- A listed file record: relative path, basename, byte size, and extension,
as `get_repository_files` assembles it. -/
structure FileEntry where
  path : String
  name : String
  size : Nat
  extension : String
deriving DecidableEq, Repr

/-- One entry of the listing: `rel_path`, the basename `file`, `size`, and
`extension = os.path.splitext(file)[1]`, then `extension[1:] if extension
else ""` — note that the source applies no `.lower()` here. -/
def mkFileEntry (relPath : String) (size : Nat) : FileEntry :=
  let file := fileName relPath
  let ext := splitextExt file
  { path := relPath, name := file, size := size,
    extension := if ext ≠ "" then String.mk (ext.data.drop 1) else "" }

/-- The walker over a repository whose regular files are given as
root-relative forward-slash paths with byte sizes, in traversal order.
Mirrors the loop body: when a filter string is present and truthy, a file
whose name does not end in `"." + filter` is skipped (`continue`); otherwise
a `FileEntry` is appended. -/
def get_repository_files (files : List (String × Nat)) (file_filter : Option String) :
    List FileEntry :=
  files.filterMap (fun fe =>
    let file := fileName fe.1
    let skip : Bool :=
      match file_filter with
      | none => false
      | some flt => if flt = "" then false else ! strEndsWith file ("." ++ flt)
    if skip then none else some (mkFileEntry fe.1 fe.2))

theorem lastIndexOf_none_not_mem (c : Char) (l : List Char)
    (h : lastIndexOf c l = none) : c ∉ l := by
  induction l with
  | nil => simp
  | cons a rest ih =>
    rw [lastIndexOf] at h
    rcases hrest : lastIndexOf c rest with _ | i
    · rw [hrest] at h
      by_cases hac : a = c
      · simp [hac] at h
      · simp only [List.mem_cons]
        rintro (rfl | hmem)
        · exact hac rfl
        · exact ih hrest hmem
    · rw [hrest] at h
      simp at h

theorem lastIndexOf_drop_not_mem (c : Char) (l : List Char) (i : Nat)
    (h : lastIndexOf c l = some i) : c ∉ l.drop (i + 1) := by
  induction l generalizing i with
  | nil => simp [lastIndexOf] at h
  | cons a rest ih =>
    rw [lastIndexOf] at h
    rcases hrest : lastIndexOf c rest with _ | j
    · rw [hrest] at h
      by_cases hac : a = c
      · simp [hac] at h
        subst h
        simpa using lastIndexOf_none_not_mem c rest hrest
      · simp [hac] at h
    · rw [hrest] at h
      simp only [Option.some.injEq] at h
      subst h
      simpa using ih j hrest

/-- The characters strictly after the dot of a `splitext` extension contain no
further dot. -/
theorem splitextExtChars_drop_one_no_dot (p : List Char) :
    '.' ∉ (splitextExtChars p).drop 1 := by
  rw [splitextExtChars]
  rcases hdot : lastIndexOf ('.') p with _ | dotIdx
  · simp
  · simp only []
    split
    · rw [List.drop_drop]
      exact lastIndexOf_drop_not_mem _ p dotIdx hdot
    · simp

theorem mkFileEntry_extension (relPath : String) (size : Nat) :
    (mkFileEntry relPath size).extension
      = String.mk ((splitextExt (fileName relPath)).data.drop 1) := by
  rw [mkFileEntry]
  by_cases hne : splitextExt (fileName relPath) = ""
  · simp [hne]
  · simp [hne]

theorem mkFileEntry_extension_no_dot (relPath : String) (size : Nat) :
    '.' ∉ (mkFileEntry relPath size).extension.data := by
  rw [mkFileEntry_extension]
  exact splitextExtChars_drop_one_no_dot (fileName relPath).data

/-- C4 amended: every listed FileEntry carries the `splitext` extension of its
basename without the leading dot but in its ORIGINAL case (the source applies
no `.lower()` here), the extension contains no dot, the name is the basename of
the path, and the path is one of the walker's root-relative paths. -/
theorem file_entry_fields (files : List (String × Nat)) (flt : Option String)
    (e : FileEntry) (he : e ∈ get_repository_files files flt) :
    e.extension = String.mk ((splitextExt e.name).data.drop 1)
    ∧ '.' ∉ e.extension.data
    ∧ e.name = fileName e.path
    ∧ e.path ∈ files.map Prod.fst := by
  rw [get_repository_files, List.mem_filterMap] at he
  obtain ⟨fe, hfe, heq⟩ := he
  simp only [] at heq
  split at heq
  · exact absurd heq (by simp)
  · rw [Option.some_inj] at heq
    subst heq
    refine ⟨mkFileEntry_extension fe.1 fe.2, mkFileEntry_extension_no_dot fe.1 fe.2, rfl, ?_⟩
    exact List.mem_map_of_mem Prod.fst hfe

/-- Witness for `file_entry_fields` at a concrete one-file repository. -/
theorem file_entry_fields_witness :
    (mkFileEntry "src/Main.PY" 7).extension
      = String.mk ((splitextExt (mkFileEntry "src/Main.PY" 7).name).data.drop 1)
    ∧ '.' ∉ (mkFileEntry "src/Main.PY" 7).extension.data := by
  have hm : mkFileEntry "src/Main.PY" 7
      ∈ get_repository_files [("src/Main.PY", 7)] none := by
    have hev : get_repository_files [("src/Main.PY", 7)] none
        = [mkFileEntry "src/Main.PY" 7] := rfl
    rw [hev]
    exact List.mem_singleton.mpr rfl
  obtain ⟨h1, h2, -, -⟩ := file_entry_fields [("src/Main.PY", 7)] none _ hm
  exact ⟨h1, h2⟩

/-- C4 counterexample: the walker records the extension in its original case,
so the claim that the extension field is lower-cased fails on a repository
containing `dir/A.PY`, whose entry carries extension `"PY"`, not `"py"`. -/
theorem file_extension_not_lowercased :
    (get_repository_files [("dir/A.PY", 10)] none).map FileEntry.extension = ["PY"]
    ∧ sLower "PY" = "py"
    ∧ ("PY" : String) ≠ "py" := by
  refine ⟨rfl, rfl, ?_⟩
  decide

/-- C5: with a non-empty extension filter, the walker lists exactly the files
whose basename ends (case-sensitively) in a dot followed by the filter, and
omits every other file. -/
theorem filter_selects_exactly (files : List (String × Nat)) (flt : String)
    (h : flt ≠ "") :
    get_repository_files files (some flt)
      = get_repository_files
          (files.filter (fun fe => strEndsWith (fileName fe.1) ("." ++ flt))) none := by
  have hstep : ∀ (p : String × Nat → Bool) (l : List (String × Nat)),
      l.filterMap (fun x => if p x then some (mkFileEntry x.1 x.2) else none)
        = (l.filter p).map (fun x => mkFileEntry x.1 x.2) := by
    intro p l
    induction l with
    | nil => rfl
    | cons a rest ih =>
      rw [List.filterMap_cons, List.filter_cons]
      by_cases ha : p a
      · simp [ha, ih]
      · simp [ha, ih]
  have hmap : ∀ l : List (String × Nat),
      get_repository_files l none = l.map (fun fe => mkFileEntry fe.1 fe.2) := by
    intro l
    induction l with
    | nil => rfl
    | cons fe rest ih =>
      rw [get_repository_files] at ih
      rw [get_repository_files, List.filterMap_cons, List.map_cons]
      simpa using ih
  have hgoal : get_repository_files files (some flt)
      = files.filterMap (fun x =>
          if strEndsWith (fileName x.1) ("." ++ flt) then some (mkFileEntry x.1 x.2)
          else none) := by
    rw [get_repository_files]
    congr 1
    funext x
    by_cases hx : strEndsWith (fileName x.1) ("." ++ flt) <;> simp [h, hx]
  rw [hgoal, hstep, hmap]

/-- Witness for `filter_selects_exactly`: filtering for `"py"` keeps `a.py` and
drops both `b.txt` and the differently-cased `c.PY`. -/
theorem filter_selects_exactly_witness :
    get_repository_files [("a.py", 1), ("b.txt", 2), ("c.PY", 3)] (some "py")
      = [mkFileEntry "a.py" 1] := by
  have h := filter_selects_exactly [("a.py", 1), ("b.txt", 2), ("c.PY", 3)] "py"
    (by decide)
  rw [h]
  rfl

/-! ## The explain handler's try-statement structure (`gemini.py`) -/

/-- Block structure of a Python suite at the try-statement level: a leaf is a
run of statements containing no try statement, and a try block records the
structure of its body, how many `except` clauses follow it, whether it carries
a `finally` block, and the structure of the statements after it. -/
inductive TryShape where
  | leaf
  | tryBlock (body : TryShape) (exceptClauses : Nat) (hasFinally : Bool) (rest : TryShape)

/-- Python's grammar requires every `try` statement to carry at least one
`except` clause or a `finally` block; a module violating this raises
`SyntaxError` at import time, before any of its handlers can run. -/
def tryShapeWellFormed : TryShape → Bool
  | .leaf => true
  | .tryBlock body n fin rest =>
    (decide (1 ≤ n) || fin) && tryShapeWellFormed body && tryShapeWellFormed rest

/-- The try structure of the `explain_code` handler: the outer `try:` at line
26 has NO `except` clause and no `finally` — the only `except` (line 201)
closes the inner `try:` opened at line 115 in the codebase branch, inside
which the `raise HTTPException(status_code=400, ...)` of line 113 also sits. -/
def explain_code_try_structure : TryShape :=
  .tryBlock (.tryBlock .leaf 1 false .leaf) 0 false .leaf

/-- The try structure of the `create_question` handler (`questions.py`, lines
23-43), the repository's well-formed handler idiom: its `try` is closed by one
`except Exception` clause that re-raises as a 500. -/
def create_question_try_structure : TryShape :=
  .tryBlock .leaf 1 false .leaf

/-- C6 (code bug): the explain handler cannot return the claimed client-facing
400 — its outer `try` statement has neither an `except` clause nor a
`finally`, so the module violates Python's grammar and raises `SyntaxError`
when imported, and no request (in particular none with the `ENTIRE_CODEBASE`
sentinel and a missing repository id) is ever answered; the repository's
well-formed handlers, such as `create_question`, do close their `try`. -/
theorem explain_handler_syntax_error :
    tryShapeWellFormed explain_code_try_structure = false
    ∧ tryShapeWellFormed create_question_try_structure = true :=
  ⟨rfl, rfl⟩

/-! ## Filesystem-state model of the stateful service operations -/

/-- The parts of the filesystem the service touches: existing directories and
regular files (absolute forward-slash path with byte size). -/
structure FS where
  dirs : List String
  files : List (String × Nat)

/-- `settings.UPLOAD_DIR = Path("./uploads")`, whose string form is `uploads`. -/
def uploadDir : String := "uploads"

/-- The repository root `self.upload_dir / repository_id`. -/
def repoDirOf (rid : String) : String := uploadDir ++ "/" ++ rid

/-- `create_repository_directory`: `os.makedirs(repo_dir, exist_ok=True)` and
return the path. -/
def create_repository_directory (fs : FS) (rid : String) : String × FS :=
  let d := repoDirOf rid
  (d, { fs with dirs := if d ∈ fs.dirs then fs.dirs else d :: fs.dirs })

/-- `upload_zip_repository`: create the repository directory, extract the
archive (the oracle gives the extracted entries or the extraction exception),
analyze (the flag tells whether analysis raises), and in the `finally` block
remove the uploaded temporary file when it exists. -/
def upload_zip_repository (fs : FS) (file_path rid : String)
    (extractResult : Except String (List (String × Nat))) (analyzeOk : Bool) :
    Except String Unit × FS :=
  let created := create_repository_directory fs rid
  let afterTry : Except String Unit × FS :=
    match extractResult with
    | .error e => (.error e, created.2)
    | .ok extracted =>
      let fs2 : FS := { created.2 with files := created.2.files ++ extracted }
      if analyzeOk then (.ok (), fs2) else (.error "analyze", fs2)
  let fs3 : FS :=
    if file_path ∈ afterTry.2.files.map Prod.fst then
      { afterTry.2 with files := afterTry.2.files.filter (fun fe => fe.1 ≠ file_path) }
    else afterTry.2
  (afterTry.1, fs3)

theorem removeFile_not_mem (A : FS) (fp : String) :
    fp ∉ ((if fp ∈ A.files.map Prod.fst then
        { A with files := A.files.filter (fun fe => fe.1 ≠ fp) }
      else A) : FS).files.map Prod.fst := by
  by_cases hm : fp ∈ A.files.map Prod.fst
  · rw [if_pos hm]
    intro hc
    rw [List.mem_map] at hc
    obtain ⟨fe, hfe, hfp⟩ := hc
    rw [List.mem_filter] at hfe
    exact absurd hfp (by simpa using hfe.2)
  · rw [if_neg hm]
    exact hm

/-- C7: whatever the extraction and analysis oracles do — succeed or raise —
the `finally` block leaves no file at the uploaded temporary path. -/
theorem zip_upload_always_cleans_temp (fs : FS) (file_path rid : String)
    (extractResult : Except String (List (String × Nat))) (analyzeOk : Bool) :
    file_path ∉
      ((upload_zip_repository fs file_path rid extractResult analyzeOk).2).files.map
        Prod.fst := by
  rw [upload_zip_repository.eq_def]
  rcases extractResult with e | extracted
  · exact removeFile_not_mem _ file_path
  · rcases analyzeOk with _ | _
    · exact removeFile_not_mem _ file_path
    · exact removeFile_not_mem _ file_path

/-- A string is the repository root or lies underneath it. `shutil.rmtree`
removes exactly these paths. -/
def isUnderOrEq (root p : String) : Bool :=
  p == root || (root ++ "/").data.isPrefixOf p.data

/-- `delete_repository`: when the repository root exists, `shutil.rmtree`
removes it and everything below and the call returns `True`; otherwise a
warning is logged and it returns `False`. -/
def delete_repository (fs : FS) (rid : String) : Bool × FS :=
  let repo_dir := repoDirOf rid
  if repo_dir ∈ fs.dirs then
    (true, { dirs := fs.dirs.filter (fun d => ! isUnderOrEq repo_dir d),
             files := fs.files.filter (fun fe => ! isUnderOrEq repo_dir fe.1) })
  else (false, fs)

/-- The result of the file-listing operation as seen by its caller. -/
inductive ListFilesResult where
  | fileNotFound (msg : String)
  | ok (entries : List FileEntry)
deriving DecidableEq

/-- The files of the filesystem that lie under a root, re-expressed relative to
it, as `os.walk` plus `os.path.relpath` produce them. -/
def filesUnder (fs : FS) (root : String) : List (String × Nat) :=
  fs.files.filterMap (fun fe =>
    if (root ++ "/").data.isPrefixOf fe.1.data then
      some (String.mk (fe.1.data.drop (root ++ "/").data.length), fe.2)
    else none)

/-- `get_repository_files` at the filesystem level: raise `FileNotFoundError`
when the repository root does not exist, else walk and list. -/
def get_repository_files_fs (fs : FS) (rid : String) (flt : Option String) :
    ListFilesResult :=
  let repo_dir := repoDirOf rid
  if repo_dir ∈ fs.dirs then .ok (get_repository_files (filesUnder fs repo_dir) flt)
  else .fileNotFound ("Repository " ++ rid ++ " not found")

/-- C8: deleting a repository and immediately listing its files (no
intervening writes) always yields the Not Found condition, whether or not the
repository existed before the delete. -/
theorem delete_then_list_not_found (fs : FS) (rid : String) (flt : Option String) :
    get_repository_files_fs (delete_repository fs rid).2 rid flt
      = .fileNotFound ("Repository " ++ rid ++ " not found") := by
  by_cases h : repoDirOf rid ∈ fs.dirs
  · rw [delete_repository, if_pos h, get_repository_files_fs]
    have hnot : repoDirOf rid
        ∉ fs.dirs.filter (fun d => ! isUnderOrEq (repoDirOf rid) d) := by
      intro hc
      rw [List.mem_filter] at hc
      have : isUnderOrEq (repoDirOf rid) (repoDirOf rid) = true := by
        rw [isUnderOrEq]
        simp
      simp [this] at hc
    rw [if_neg hnot]
  · rw [delete_repository, if_neg h, get_repository_files_fs, if_neg h]

/-! ## The create-question handler (`questions.py`) -/

/-- Outcome of the repository-existence check inside `create_question`. -/
inductive QuestionOutcome where
  | notFoundError
  | processed
deriving DecidableEq

/-- `create_question`: it calls `create_repository_directory` (which runs
`os.makedirs(..., exist_ok=True)`) and then raises a 404 when the directory it
just created does not exist; otherwise it processes the question. -/
def create_question (fs : FS) (rid : String) : QuestionOutcome × FS :=
  let created := create_repository_directory fs rid
  if created.1 ∈ created.2.dirs then (.processed, created.2)
  else (.notFoundError, created.2)

/-- C10: the Not Found branch of `create_question` is unreachable — the
existence check always succeeds because the handler just created the
directory — and the repository directory exists on disk afterwards even when
the repository identifier never existed before. -/
theorem question_not_found_unreachable (fs : FS) (rid : String) :
    (create_question fs rid).1 = .processed
    ∧ repoDirOf rid ∈ (create_question fs rid).2.dirs := by
  have hmem : repoDirOf rid ∈ (create_repository_directory fs rid).2.dirs := by
    rw [create_repository_directory]
    by_cases h : repoDirOf rid ∈ fs.dirs
    · simp [h]
    · simp [h]
  have hfst : (create_repository_directory fs rid).1 = repoDirOf rid := rfl
  constructor
  · rw [create_question, hfst, if_pos hmem]
  · rw [create_question, hfst, if_pos hmem]
    exact hmem

/-! ## Path resolution and `get_file_content` (`repository_service.py`) -/

/-- Splits a character list at forward slashes. -/
def splitPathAux (cur : List Char) : List Char → List String
  | [] => [String.mk cur.reverse]
  | c :: rest =>
    if c = '/' then String.mk cur.reverse :: splitPathAux [] rest
    else splitPathAux (c :: cur) rest

/-- Components of a forward-slash path string. -/
def splitPath (s : String) : List String := splitPathAux [] s.data

/-- POSIX resolution of a component list as the kernel applies it when a path
is opened: empty and `.` components vanish, `..` removes the preceding
component (and is a no-op at the root). -/
def normalizePath (cs : List String) : List String :=
  cs.foldl (fun acc c =>
    if c = "" ∨ c = "." then acc
    else if c = ".." then acc.dropLast
    else acc ++ [c]) []

/-- `get_file_content`: `full_path = repo_dir / file_path` with NO containment
check, then existence test and read. The filesystem is a map from resolved
absolute path components to the file's decoded text. -/
def get_file_content_resolved (fsc : List (List String × String))
    (rid file_path : String) : Except String String :=
  let full := uploadDir ++ "/" ++ rid ++ "/" ++ file_path
  match fsc.lookup (normalizePath (splitPath full)) with
  | some content => Except.ok content
  | none => Except.error ("File " ++ file_path ++ " not found in repository " ++ rid)

/-- A filesystem with one file inside the repository and one outside it. -/
def traversalFS : List (List String × String) :=
  [(["uploads", "repo1", "README.md"], "readme text"),
   (["etc", "passwd"], "root:x:0:0")]

/-- C9: the unchecked join lets a dot-dot file path escape the repository
root — on `traversalFS`, repository `repo1` with path `../../etc/passwd`
returns the outside file's content, and the resolved path does not lie under
the repository root. -/
theorem path_traversal_escapes_root :
    get_file_content_resolved traversalFS "repo1" "../../etc/passwd"
      = Except.ok "root:x:0:0"
    ∧ ".." ∈ splitPath "../../etc/passwd"
    ∧ (["uploads", "repo1"].isPrefixOf
        (normalizePath
          (splitPath (uploadDir ++ "/" ++ "repo1" ++ "/" ++ "../../etc/passwd"))))
      = false := by
  refine ⟨rfl, ?_, rfl⟩
  have hs : splitPath "../../etc/passwd" = ["..", "..", "etc", "passwd"] := rfl
  rw [hs]
  exact List.mem_cons_self ".." _
